import Mathlib

/-!
To-do list: the class `SimpleTask`.

A shallow embedding of `src/to-do-list/simple_task.h`, `src/to-do-list/task_errors.h`,
`src/to-do-list/main.cc` and the interface of `src/to-do-list/taskrepo.h`.

* `std::string` is a finite sequence of bytes (`char`), so it is a `List UInt8`;
  `empty()` is emptiness of the list and `length()` is the number of bytes.
* A member function that mutates `*this` and returns `std::expected<void, TaskError>`
  becomes a pure function returning the result together with the state after the call.
* A constructor that may `throw` becomes a function into `Except`: `.error e` is the thrown
  exception (no object exists), `.ok t` is the constructed object.
-/

/-- A `std::string`: a sequence of bytes. -/
abbrev CppString := List UInt8

/-- A narrow string literal of the source file, as the bytes of its UTF-8 encoding. -/
def lit (s : String) : CppString :=
  s.toList.flatMap String.utf8EncodeChar

/-- The exception class `TaskConstructionError` (`task_errors.h`), a `std::logic_error`
carrying the message given to its constructor. -/
structure TaskConstructionError where
  message : CppString
  deriving DecidableEq, Repr

/-- The enumeration `TaskError` (`task_errors.h`). -/
inductive TaskError where
  | kEmptyDescription
  | kDescriptionTooLong
  | kAlreadyComplete
  deriving DecidableEq, Repr

/-- The private fields of the class `SimpleTask` (`simple_task.h`): `id_` is a
`std::uint64_t` (no arithmetic is ever done on it), `is_complete_` a `bool`,
`description_` a `std::string`. -/
structure SimpleTask where
  id_ : Nat
  is_complete_ : Bool
  description_ : CppString
  deriving DecidableEq, Repr

/-- The constructor `SimpleTask::SimpleTask(const std::string& description)`.
The member initialisers copy `description` into `description_` and set `is_complete_`
to `false`; `id_` keeps its default member initialiser `{}`, which is `0`.  The body
throws when `description.empty()`. -/
def SimpleTask.construct (description : CppString) : Except TaskConstructionError SimpleTask :=
  let self : SimpleTask := { id_ := 0, is_complete_ := false, description_ := description }
  if description.isEmpty then
    .error ⟨lit "Simple Task Error: Description must not be empty."⟩
  else
    .ok self

/-- The member `SimpleTask::GetId`. -/
def SimpleTask.GetId (self : SimpleTask) : Nat := self.id_

/-- The member `SimpleTask::GetDescription`. -/
def SimpleTask.GetDescription (self : SimpleTask) : CppString := self.description_

/-- The member `SimpleTask::IsComplete`. -/
def SimpleTask.IsComplete (self : SimpleTask) : Bool := self.is_complete_

/-- The member `SimpleTask::SetDescription`: the returned `std::expected<void, TaskError>`
and the object after the call. -/
def SimpleTask.SetDescription (self : SimpleTask) (description : CppString) :
    Except TaskError Unit × SimpleTask :=
  -- Size validation
  if description.isEmpty then
    (.error TaskError.kEmptyDescription, self)
  -- Length validation
  else if description.length > 255 then
    (.error TaskError.kDescriptionTooLong, self)
  else
    (.ok (), { self with description_ := description })

/-- The member `SimpleTask::MarkComplete`: the returned `std::expected<void, TaskError>`
and the object after the call. -/
def SimpleTask.MarkComplete (self : SimpleTask) : Except TaskError Unit × SimpleTask :=
  if self.is_complete_ then
    (.error TaskError.kAlreadyComplete, self)
  else
    (.ok (), { self with is_complete_ := true })

/-- A call of one of the two mutators of the `Task` interface, with its argument. -/
inductive TaskCall where
  | SetDescription (description : CppString)
  | MarkComplete
  deriving DecidableEq, Repr

/-- The object after one mutator call; the returned `std::expected` is dropped. -/
def SimpleTask.call (self : SimpleTask) : TaskCall → SimpleTask
  | .SetDescription d => (self.SetDescription d).2
  | .MarkComplete => self.MarkComplete.2

/-- The object after a finite sequence of mutator calls, made in order. -/
def SimpleTask.calls (self : SimpleTask) (cs : List TaskCall) : SimpleTask :=
  cs.foldl SimpleTask.call self

/-- The description invariant of the data model: non-empty and at most 255 bytes long. -/
def SimpleTask.DescriptionValid (self : SimpleTask) : Prop :=
  self.description_ ≠ [] ∧ self.description_.length ≤ 255

instance (t : SimpleTask) : Decidable t.DescriptionValid := by
  unfold SimpleTask.DescriptionValid; infer_instance

/-- The library function `std::to_string` on a non-negative integer: its decimal digits,
most significant first, as ASCII bytes; `0` renders as `"0"`. -/
def to_string (n : Nat) : CppString :=
  if n = 0 then lit "0" else (Nat.digits 10 n).reverse.map (fun d => UInt8.ofNat (48 + d))

/-- The integral promotion of a `bool` to `int`, which selects the overload of
`std::to_string` in `std::to_string(is_complete_)`. -/
def boolToInt (b : Bool) : Nat := if b then 1 else 0

/-- The member `SimpleTask::ToString`. -/
def SimpleTask.ToString (self : SimpleTask) : CppString :=
  lit "SimpleTask \x7b ID: " ++ to_string self.id_ ++
    lit ", Completion Status: " ++ to_string (boolToInt self.is_complete_) ++
    lit ", Description: " ++ self.description_ ++ lit "\x7d"

/-- The rendering template of the external-interface section of the specification,
`SimpleTask { ID: <id>, Completion Status: <status>, Description: <description>` followed
by `closing`, with the three fields filled in.  It follows the words of the specification,
to be compared with `SimpleTask.ToString`. -/
def renderTemplate (id status description closing : CppString) : CppString :=
  lit "SimpleTask \x7b ID: " ++ id ++ lit ", Completion Status: " ++ status ++
    lit ", Description: " ++ description ++ closing

/-- The status field of the specification: the literal text `0` (pending) or `1` (complete). -/
def statusText (c : Bool) : CppString := if c then lit "1" else lit "0"

/-- A text as a sequence of Unicode code points, stored in a `std::string` as the bytes of
its UTF-8 encoding. -/
def utf8 (text : List Char) : CppString :=
  text.flatMap String.utf8EncodeChar

/-- The exception classes named by the handlers of `main` (`main.cc`):
`TaskConstructionError` derives from `std::logic_error` (`task_errors.h`), which derives
from `std::exception`. -/
inductive ExceptionClass where
  | TaskConstructionError
  | logic_error
  | exception
  deriving DecidableEq, Repr

/-- Whether a handler `catch (const base&)` matches a thrown object of dynamic class
`thrown`: `base` is that class or one of its public bases. -/
def ExceptionClass.caughtBy (thrown base : ExceptionClass) : Bool :=
  match thrown, base with
  | .TaskConstructionError, _ => true
  | .logic_error, .TaskConstructionError => false
  | .logic_error, _ => true
  | .exception, .exception => true
  | .exception, _ => false

namespace ToDoList

/-- What a run of `main` (`main.cc`) does: the handler that ran, if any, the bytes written
to `std::cerr`, and the value returned (`none` when the exception escapes `main`). -/
structure MainResult where
  handler : Option ExceptionClass
  cerr : CppString
  returned : Option Int
  deriving DecidableEq, Repr

/-- The `catch` clauses of `main`, in source order, each with the text it prints before
`e.what()`. -/
def catchClauses : List (ExceptionClass × CppString) :=
  [(.TaskConstructionError, lit "Task Construction Failure:"),
   (.logic_error, lit "Generic Logic Error: "),
   (.exception, lit "Unknown Standard Error: ")]

/-- The function `main` of `main.cc`: it constructs `SimpleTask task("")` inside a `try`
block; a thrown exception goes to the first clause that matches its dynamic class, which
prints its text, `e.what()` and `std::endl`; then `main` returns 0. -/
def main : MainResult :=
  match SimpleTask.construct (lit "") with
  | .ok _ => { handler := none, cerr := [], returned := some 0 }
  | .error e =>
    match catchClauses.find? (fun c => ExceptionClass.caughtBy .TaskConstructionError c.1) with
    | some c => { handler := some c.1, cerr := c.2 ++ e.message ++ lit "\n", returned := some 0 }
    | none => { handler := none, cerr := [], returned := none }

end ToDoList

/-- The interface `TaskRepo` of `taskrepo.h`: its five pure-virtual members, over a type
`σ` of repository states.  None of the members is `const`, so each returns the state after
the call next to its result.  `Task` is abstract and `SimpleTask` is its only variant, so
tasks are passed and returned as `SimpleTask` values. -/
structure TaskRepo (σ : Type) where
  addTask : σ → SimpleTask → Except TaskError Nat × σ
  updateTask : σ → SimpleTask → Except TaskError Unit × σ
  deleteTask : σ → Nat → Except TaskError Unit × σ
  getAllTasks : σ → List SimpleTask × σ
  getTaskByID : σ → Nat → Option SimpleTask × σ

/-- A call of one of the five members of `TaskRepo`, with its argument. -/
inductive RepoCall where
  | addTask (task : SimpleTask)
  | updateTask (task : SimpleTask)
  | deleteTask (id : Nat)
  | getAllTasks
  | getTaskByID (id : Nat)
  deriving DecidableEq, Repr

/-- Whether a call modifies or removes the task stored under the identity `i`: an
`updateTask` of a task carrying identity `i`, or `deleteTask(i)`. -/
def RepoCall.touches (i : Nat) : RepoCall → Bool
  | .updateTask task => task.GetId == i
  | .deleteTask id => id == i
  | _ => false

/-- The repository state after one call; the result of the call is dropped. -/
def TaskRepo.call {σ : Type} (R : TaskRepo σ) (s : σ) : RepoCall → σ
  | .addTask task => (R.addTask s task).2
  | .updateTask task => (R.updateTask s task).2
  | .deleteTask id => (R.deleteTask s id).2
  | .getAllTasks => (R.getAllTasks s).2
  | .getTaskByID id => (R.getTaskByID s id).2

/-- The repository state after a finite sequence of calls, made in order. -/
def TaskRepo.calls {σ : Type} (R : TaskRepo σ) (s : σ) (cs : List RepoCall) : σ :=
  cs.foldl R.call s

/-- The identity that one call returns from `addTask`, if it is an `addTask` call that
succeeds. -/
def TaskRepo.returnedBy {σ : Type} (R : TaskRepo σ) (s : σ) : RepoCall → List Nat
  | .addTask task =>
    match (R.addTask s task).1 with
    | .ok i => [i]
    | .error _ => []
  | _ => []

/-- The identities returned by the `addTask` calls of a sequence of calls made in order
from the state `s`. -/
def TaskRepo.returned {σ : Type} (R : TaskRepo σ) (s : σ) : List RepoCall → List Nat
  | [] => []
  | c :: cs => R.returnedBy s c ++ R.returned (R.call s c) cs

/-- Modelled from the spec: what a repository owns.  `taskrepo.h` declares pure-virtual
members only and no implementation exists in the source; the specification says a
repository "owns zero or more tasks by identity" and "is the sole authority for identity
assignment on add".  `owned i` is the task owned under identity `i`, if any, and `issued i`
tells whether `addTask` has already assigned `i`. -/
structure RepoContents where
  owned : Nat → Option SimpleTask
  issued : Nat → Bool

/-- Modelled from the spec: the contents of a repository that owns zero tasks and has
assigned no identity. -/
def RepoContents.empty : RepoContents :=
  { owned := fun _ => none, issued := fun _ => false }

/-- Modelled from the spec: the effect of a successful `addTask`, which "persists a task,
assigns and returns a fresh, repository-unique identity; the caller's original task identity
(if any) is ignored/overwritten"; `i` is the identity assigned. -/
def RepoContents.added (c : RepoContents) (i : Nat) (task : SimpleTask) : RepoContents :=
  { owned := fun j => if j = i then some { task with id_ := i } else c.owned j,
    issued := fun j => j == i || c.issued j }

/-- Modelled from the spec: the effect of a successful `updateTask`, which "replaces the
stored task sharing the given task's identity". -/
def RepoContents.updated (c : RepoContents) (task : SimpleTask) : RepoContents :=
  { owned := fun j => if j = task.GetId then some task else c.owned j,
    issued := c.issued }

/-- Modelled from the spec: the effect of a successful `deleteTask`, which "removes the
task with the given identity". -/
def RepoContents.deleted (c : RepoContents) (i : Nat) : RepoContents :=
  { owned := fun j => if j = i then none else c.owned j,
    issued := c.issued }

/-- Modelled from the spec: conformance of an implementation `R` of `TaskRepo` to the
repository contract, through a reading `contents` of what each of its states owns.
* `addTask`, when it returns an identity, returns one not assigned before and has the effect
  `RepoContents.added`.
* `updateTask` succeeds only on an identity that is owned ("fails if no task with that
  identity exists") and then has the effect `RepoContents.updated`.
* `deleteTask` succeeds only on an identity that is owned ("fails if absent") and then has
  the effect `RepoContents.deleted`.
* A call that returns a failure leaves the contents as they were.
* `getAllTasks` "returns every stored task", in any order, and `getTaskByID` "returns the
  matching task if present, otherwise an explicit absence signal"; neither changes the
  contents. -/
structure TaskRepo.Conformant {σ : Type} (R : TaskRepo σ) (contents : σ → RepoContents) :
    Prop where
  addTask_ok : ∀ s task i, (R.addTask s task).1 = .ok i →
    (contents s).issued i = false ∧
      contents (R.addTask s task).2 = (contents s).added i task
  addTask_error : ∀ s task e, (R.addTask s task).1 = .error e →
    contents (R.addTask s task).2 = contents s
  updateTask_ok : ∀ s task, (R.updateTask s task).1 = .ok () →
    (contents s).owned task.GetId ≠ none ∧
      contents (R.updateTask s task).2 = (contents s).updated task
  updateTask_error : ∀ s task e, (R.updateTask s task).1 = .error e →
    contents (R.updateTask s task).2 = contents s
  deleteTask_ok : ∀ s id, (R.deleteTask s id).1 = .ok () →
    (contents s).owned id ≠ none ∧
      contents (R.deleteTask s id).2 = (contents s).deleted id
  deleteTask_error : ∀ s id e, (R.deleteTask s id).1 = .error e →
    contents (R.deleteTask s id).2 = contents s
  getAllTasks_spec : ∀ s,
    (∀ task, task ∈ (R.getAllTasks s).1 ↔ (contents s).owned task.GetId = some task) ∧
      contents (R.getAllTasks s).2 = contents s
  getTaskByID_spec : ∀ s id,
    (R.getTaskByID s id).1 = (contents s).owned id ∧
      contents (R.getTaskByID s id).2 = contents s

/-- Modelled from the spec: the state of one repository kept in memory, an implementation
of `TaskRepo` used to exercise the contract.  `tasks` holds the stored tasks, newest first,
each under its identity, and the first entry under an identity is the current one;
`next_id` is the next identity to assign. -/
structure MemoryRepo where
  tasks : List SimpleTask
  next_id : Nat
  deriving DecidableEq, Repr

/-- Modelled from the spec: the in-memory repository that owns zero tasks. -/
def MemoryRepo.empty : MemoryRepo := { tasks := [], next_id := 0 }

/-- Modelled from the spec: the task an in-memory repository holds under an identity. -/
def MemoryRepo.find (s : MemoryRepo) (id : Nat) : Option SimpleTask :=
  if id < s.next_id then s.tasks.find? (fun t => t.id_ == id) else none

/-- Modelled from the spec: what an in-memory repository owns. -/
def MemoryRepo.contents (s : MemoryRepo) : RepoContents :=
  { owned := s.find, issued := fun j => decide (j < s.next_id) }

/-- Modelled from the spec: the five members of `TaskRepo` for the in-memory repository.
The specification leaves open which failure kind reports an unknown identity, so that kind
is the argument `notFound`. -/
def MemoryRepo.repo (notFound : TaskError) : TaskRepo MemoryRepo :=
  { addTask := fun s task =>
      (.ok s.next_id,
        { tasks := { task with id_ := s.next_id } :: s.tasks, next_id := s.next_id + 1 })
    updateTask := fun s task =>
      if (s.find task.GetId).isSome then (.ok (), { s with tasks := task :: s.tasks })
      else (.error notFound, s)
    deleteTask := fun s id =>
      if (s.find id).isSome then
        (.ok (), { s with tasks := s.tasks.filter (fun t => t.id_ != id) })
      else (.error notFound, s)
    getAllTasks := fun s => (s.tasks.filter (fun t => s.find t.id_ == some t), s)
    getTaskByID := fun s id => (s.find id, s) }

/-! ## Shared facts about the two mutators -/

theorem SimpleTask.SetDescription_empty (t : SimpleTask) :
    t.SetDescription [] = (.error TaskError.kEmptyDescription, t) := rfl

theorem SimpleTask.SetDescription_long (t : SimpleTask) (s : CppString) (h : 255 < s.length) :
    t.SetDescription s = (.error TaskError.kDescriptionTooLong, t) := by
  have hne : s.isEmpty = false := by
    cases s with
    | nil => simp at h
    | cons b bs => rfl
  have hgt : s.length > 255 := h
  simp only [SimpleTask.SetDescription, hne, hgt, Bool.false_eq_true, if_false, if_true]

theorem SimpleTask.SetDescription_valid (t : SimpleTask) (s : CppString)
    (hne : s ≠ []) (hlen : s.length ≤ 255) :
    t.SetDescription s = (.ok (), { t with description_ := s }) := by
  have hemp : s.isEmpty = false := by
    cases s with
    | nil => exact absurd rfl hne
    | cons b bs => rfl
  have hgt : ¬ s.length > 255 := Nat.not_lt.mpr hlen
  simp only [SimpleTask.SetDescription, hemp, hgt, Bool.false_eq_true, if_false]

theorem SimpleTask.MarkComplete_pending (t : SimpleTask) (h : t.is_complete_ = false) :
    t.MarkComplete = (.ok (), { t with is_complete_ := true }) := by
  simp [SimpleTask.MarkComplete, h]

theorem SimpleTask.MarkComplete_complete (t : SimpleTask) (h : t.is_complete_ = true) :
    t.MarkComplete = (.error TaskError.kAlreadyComplete, t) := by
  simp [SimpleTask.MarkComplete, h]

/-- Every call of `SetDescription` leaves the object unchanged or replaces only the
description by the argument, and the latter only for a valid argument. -/
theorem SimpleTask.SetDescription_state (t : SimpleTask) (s : CppString) :
    (t.SetDescription s).2 = t ∨
      ((t.SetDescription s).2 = { t with description_ := s } ∧ s ≠ [] ∧ s.length ≤ 255) := by
  by_cases hne : s = []
  · subst hne; exact Or.inl rfl
  · by_cases hlen : s.length ≤ 255
    · right; rw [SimpleTask.SetDescription_valid t s hne hlen]; exact ⟨rfl, hne, hlen⟩
    · left; rw [SimpleTask.SetDescription_long t s (Nat.lt_of_not_le hlen)]

theorem SimpleTask.call_complete (t : SimpleTask) (c : TaskCall) (h : t.is_complete_ = true) :
    (t.call c).is_complete_ = true := by
  cases c with
  | SetDescription d =>
    rcases SimpleTask.SetDescription_state t d with e | ⟨e, _⟩ <;>
      simp [SimpleTask.call, e, h]
  | MarkComplete => simp [SimpleTask.call, SimpleTask.MarkComplete_complete t h, h]

theorem to_string_boolToInt (c : Bool) : to_string (boolToInt c) = statusText c := by
  cases c
  · rfl
  · have h : Nat.digits 10 1 = [1] := by norm_num
    simp only [boolToInt, statusText, to_string, h, if_true]
    decide

theorem SimpleTask.ToString_eq_renderTemplate (t : SimpleTask) :
    t.ToString =
      renderTemplate (to_string t.id_) (statusText t.is_complete_) t.description_ (lit "\x7d") := by
  simp only [SimpleTask.ToString, renderTemplate, to_string_boolToInt]

theorem SimpleTask.call_id (t : SimpleTask) (c : TaskCall) : (t.call c).id_ = t.id_ := by
  cases c with
  | SetDescription d =>
    rcases SimpleTask.SetDescription_state t d with e | ⟨e, _⟩ <;> simp [SimpleTask.call, e]
  | MarkComplete =>
    cases h : t.is_complete_ with
    | true => simp [SimpleTask.call, SimpleTask.MarkComplete_complete t h]
    | false => simp [SimpleTask.call, SimpleTask.MarkComplete_pending t h]

theorem SimpleTask.calls_id (t : SimpleTask) (cs : List TaskCall) : (t.calls cs).id_ = t.id_ := by
  induction cs generalizing t with
  | nil => rfl
  | cons c cs ih =>
    have h := ih (t.call c)
    rw [SimpleTask.call_id] at h
    simpa [SimpleTask.calls] using h

theorem utf8_cons (c : Char) (cs : List Char) :
    utf8 (c :: cs) = String.utf8EncodeChar c ++ utf8 cs := by
  simp [utf8]

theorem utf8_ne_nil (text : List Char) (h : text ≠ []) : utf8 text ≠ [] := by
  cases text with
  | nil => exact absurd rfl h
  | cons c cs =>
    intro e
    have hl := congrArg List.length e
    rw [utf8_cons, List.length_append, String.length_utf8EncodeChar] at hl
    have := Char.utf8Size_pos c
    simp at hl
    omega

theorem utf8_length_replicate (n : Nat) (c : Char) :
    (utf8 (List.replicate n c)).length = n * c.utf8Size := by
  induction n with
  | zero => simp [utf8]
  | succ n ih =>
    rw [List.replicate_succ, utf8_cons, List.length_append, String.length_utf8EncodeChar, ih]
    ring

/-! ## Facts about the decimal rendering -/

/-- The decimal digits of `n`, least significant first, with `0` having the digit `0`. -/
theorem to_string_eq_map (n : Nat) :
    to_string n =
      ((if n = 0 then [0] else Nat.digits 10 n).reverse.map (fun d => UInt8.ofNat (48 + d))) := by
  unfold to_string
  split
  · decide
  · rfl

theorem decimal_digit_lt (n d : Nat) (h : d ∈ (if n = 0 then [0] else Nat.digits 10 n)) :
    d < 10 := by
  split at h
  · simp at h; omega
  · exact Nat.digits_lt_base (by decide) h

theorem digit_byte_decode (d : Nat) (h : d < 10) : (UInt8.ofNat (48 + d)).toNat - 48 = d := by
  interval_cases d <;> rfl

theorem digit_byte_ne_comma (d : Nat) (h : d < 10) : UInt8.ofNat (48 + d) ≠ 44 := by
  interval_cases d <;> decide

theorem to_string_no_comma (n : Nat) : (44 : UInt8) ∉ to_string n := by
  rw [to_string_eq_map]
  intro hm
  obtain ⟨d, hd, he⟩ := List.mem_map.mp hm
  exact digit_byte_ne_comma d (decimal_digit_lt n d (List.mem_reverse.mp hd)) he

theorem to_string_injective (a b : Nat) (h : to_string a = to_string b) : a = b := by
  rw [to_string_eq_map, to_string_eq_map] at h
  have key : ∀ n : Nat,
      ((if n = 0 then [0] else Nat.digits 10 n).reverse.map
        (fun d => UInt8.ofNat (48 + d))).map (fun x => x.toNat - 48) =
      (if n = 0 then [0] else Nat.digits 10 n).reverse := by
    intro n
    rw [List.map_map]
    conv_rhs => rw [← List.map_id ((if n = 0 then [0] else Nat.digits 10 n).reverse)]
    apply List.map_congr_left
    intro d hd
    exact digit_byte_decode d (decimal_digit_lt n d (List.mem_reverse.mp hd))
  have h2 := congrArg (List.map (fun x : UInt8 => x.toNat - 48)) h
  rw [key a, key b] at h2
  have h3 := List.reverse_injective h2
  have h4 := congrArg (Nat.ofDigits 10) h3
  have ofd : ∀ n : Nat, Nat.ofDigits 10 (if n = 0 then [0] else Nat.digits 10 n) = n := by
    intro n
    split
    · next hn => simp [hn, Nat.ofDigits]
    · exact Nat.ofDigits_digits 10 n
  rw [ofd a, ofd b] at h4
  exact h4

/-- Two texts that agree and are each cut at the first occurrence of a separator byte have
the same part before the separator and the same part after it. -/
theorem split_at_separator {c : UInt8} :
    ∀ (x₁ x₂ r₁ r₂ : List UInt8), c ∉ x₁ → c ∉ x₂ → x₁ ++ c :: r₁ = x₂ ++ c :: r₂ →
      x₁ = x₂ ∧ r₁ = r₂
  | [], [], _, _, _, _, h => by simpa using h
  | [], b :: x₂, _, _, _, h₂, h => by
    simp only [List.nil_append, List.cons_append, List.cons.injEq] at h
    exact absurd (List.mem_cons.mpr (Or.inl h.1)) h₂
  | a :: x₁, [], _, _, h₁, _, h => by
    simp only [List.nil_append, List.cons_append, List.cons.injEq] at h
    exact absurd (List.mem_cons.mpr (Or.inl h.1.symm)) h₁
  | a :: x₁, b :: x₂, r₁, r₂, h₁, h₂, h => by
    simp only [List.cons_append, List.cons.injEq] at h
    have ih := split_at_separator x₁ x₂ r₁ r₂
      (fun hm => h₁ (List.mem_cons_of_mem _ hm)) (fun hm => h₂ (List.mem_cons_of_mem _ hm)) h.2
    exact ⟨by rw [h.1, ih.1], ih.2⟩

/-! ## Facts about the repository contract -/

theorem TaskRepo.Conformant.call_keeps {σ : Type} {R : TaskRepo σ} {contents : σ → RepoContents}
    (hR : R.Conformant contents) (s : σ) (c : RepoCall) (i : Nat)
    (hi : (contents s).issued i = true) (hc : c.touches i = false) :
    (contents (R.call s c)).owned i = (contents s).owned i ∧
      (contents (R.call s c)).issued i = true := by
  cases c with
  | addTask task =>
    show (contents (R.addTask s task).2).owned i = _ ∧ (contents (R.addTask s task).2).issued i = _
    cases h : (R.addTask s task).1 with
    | error e => rw [hR.addTask_error s task e h]; exact ⟨rfl, hi⟩
    | ok k =>
      obtain ⟨hf, he⟩ := hR.addTask_ok s task k h
      have hne : i ≠ k := by
        rintro rfl
        rw [hi] at hf
        exact Bool.noConfusion hf
      rw [he]
      simp [RepoContents.added, hne, hi]
  | updateTask task =>
    show (contents (R.updateTask s task).2).owned i = _ ∧
      (contents (R.updateTask s task).2).issued i = _
    have hne : i ≠ task.GetId := by
      rintro rfl
      simp [RepoCall.touches] at hc
    cases h : (R.updateTask s task).1 with
    | error e => rw [hR.updateTask_error s task e h]; exact ⟨rfl, hi⟩
    | ok u =>
      rw [(hR.updateTask_ok s task h).2]
      simp [RepoContents.updated, hne, hi]
  | deleteTask id =>
    show (contents (R.deleteTask s id).2).owned i = _ ∧
      (contents (R.deleteTask s id).2).issued i = _
    have hne : i ≠ id := by
      rintro rfl
      simp [RepoCall.touches] at hc
    cases h : (R.deleteTask s id).1 with
    | error e => rw [hR.deleteTask_error s id e h]; exact ⟨rfl, hi⟩
    | ok u =>
      rw [(hR.deleteTask_ok s id h).2]
      simp [RepoContents.deleted, hne, hi]
  | getAllTasks =>
    show (contents (R.getAllTasks s).2).owned i = _ ∧ (contents (R.getAllTasks s).2).issued i = _
    rw [(hR.getAllTasks_spec s).2]; exact ⟨rfl, hi⟩
  | getTaskByID id =>
    show (contents (R.getTaskByID s id).2).owned i = _ ∧
      (contents (R.getTaskByID s id).2).issued i = _
    rw [(hR.getTaskByID_spec s id).2]; exact ⟨rfl, hi⟩

theorem TaskRepo.Conformant.calls_keeps {σ : Type} {R : TaskRepo σ}
    {contents : σ → RepoContents} (hR : R.Conformant contents) (i : Nat) (cs : List RepoCall) :
    ∀ s : σ, (contents s).issued i = true → (∀ c ∈ cs, c.touches i = false) →
      (contents (R.calls s cs)).owned i = (contents s).owned i := by
  induction cs with
  | nil => intro s _ _; rfl
  | cons c cs ih =>
    intro s hi hc
    have h1 := hR.call_keeps s c i hi (hc c (List.mem_cons_self c cs))
    have h2 := ih (R.call s c) h1.2 (fun d hd => hc d (List.mem_cons_of_mem c hd))
    show (contents (R.calls (R.call s c) cs)).owned i = _
    rw [h2, h1.1]

theorem TaskRepo.Conformant.call_absent {σ : Type} {R : TaskRepo σ}
    {contents : σ → RepoContents} (hR : R.Conformant contents) (s : σ) (c : RepoCall) (j : Nat)
    (hj : j ∉ R.returnedBy s c) (ho : (contents s).owned j = none)
    (hi : (contents s).issued j = false) :
    (contents (R.call s c)).owned j = none ∧ (contents (R.call s c)).issued j = false := by
  cases c with
  | addTask task =>
    show (contents (R.addTask s task).2).owned j = _ ∧ (contents (R.addTask s task).2).issued j = _
    cases h : (R.addTask s task).1 with
    | error e => rw [hR.addTask_error s task e h]; exact ⟨ho, hi⟩
    | ok k =>
      have hne : j ≠ k := by
        simpa [TaskRepo.returnedBy, h] using hj
      rw [(hR.addTask_ok s task k h).2]
      simp [RepoContents.added, hne, ho, hi]
  | updateTask task =>
    show (contents (R.updateTask s task).2).owned j = _ ∧
      (contents (R.updateTask s task).2).issued j = _
    cases h : (R.updateTask s task).1 with
    | error e => rw [hR.updateTask_error s task e h]; exact ⟨ho, hi⟩
    | ok u =>
      obtain ⟨hp, he⟩ := hR.updateTask_ok s task h
      have hne : j ≠ task.GetId := by
        rintro rfl
        exact hp ho
      rw [he]
      simp [RepoContents.updated, hne, ho, hi]
  | deleteTask id =>
    show (contents (R.deleteTask s id).2).owned j = _ ∧
      (contents (R.deleteTask s id).2).issued j = _
    cases h : (R.deleteTask s id).1 with
    | error e => rw [hR.deleteTask_error s id e h]; exact ⟨ho, hi⟩
    | ok u =>
      rw [(hR.deleteTask_ok s id h).2]
      simp [RepoContents.deleted, ho, hi]
  | getAllTasks =>
    show (contents (R.getAllTasks s).2).owned j = _ ∧ (contents (R.getAllTasks s).2).issued j = _
    rw [(hR.getAllTasks_spec s).2]; exact ⟨ho, hi⟩
  | getTaskByID id =>
    show (contents (R.getTaskByID s id).2).owned j = _ ∧
      (contents (R.getTaskByID s id).2).issued j = _
    rw [(hR.getTaskByID_spec s id).2]; exact ⟨ho, hi⟩

theorem TaskRepo.Conformant.calls_absent {σ : Type} {R : TaskRepo σ}
    {contents : σ → RepoContents} (hR : R.Conformant contents) (j : Nat) (cs : List RepoCall) :
    ∀ s : σ, j ∉ R.returned s cs → (contents s).owned j = none →
      (contents s).issued j = false → (contents (R.calls s cs)).owned j = none := by
  induction cs with
  | nil => intro s _ ho _; exact ho
  | cons c cs ih =>
    intro s hj ho hi
    simp only [TaskRepo.returned, List.mem_append, not_or] at hj
    have h1 := hR.call_absent s c j hj.1 ho hi
    exact ih (R.call s c) hj.2 h1.1 h1.2

theorem MemoryRepo.find_filter_ne (l : List SimpleTask) (i j : Nat) (h : j ≠ i) :
    (l.filter (fun t => t.id_ != i)).find? (fun t => t.id_ == j) =
      l.find? (fun t => t.id_ == j) := by
  induction l with
  | nil => rfl
  | cons a l ih =>
    by_cases ha : a.id_ = i
    · subst ha
      have hj : (a.id_ == j) = false := by
        simp only [beq_eq_false_iff_ne, ne_eq]
        exact fun e => h e.symm
      simp [List.filter_cons, List.find?_cons, ih, hj]
    · simp [List.filter_cons, List.find?_cons, ha, ih]

theorem MemoryRepo.find_lt (s : MemoryRepo) (i : Nat) (h : s.find i ≠ none) : i < s.next_id := by
  unfold MemoryRepo.find at h
  by_contra hlt
  simp [hlt] at h

theorem MemoryRepo.conformant (notFound : TaskError) :
    (MemoryRepo.repo notFound).Conformant MemoryRepo.contents where
  addTask_ok := by
    intro s task i h
    have hi : i = s.next_id := by
      simp only [MemoryRepo.repo, Except.ok.injEq] at h
      exact h.symm
    subst hi
    refine ⟨by simp [MemoryRepo.contents], ?_⟩
    simp only [MemoryRepo.repo, MemoryRepo.contents, RepoContents.added, RepoContents.mk.injEq]
    constructor
    · funext j
      by_cases hj : j = s.next_id
      · simp [MemoryRepo.find, hj]
      · have hn : ¬ s.next_id = j := fun e => hj e.symm
        by_cases hl : j < s.next_id
        · have hl2 : j < s.next_id + 1 := Nat.lt_succ_of_lt hl
          simp [MemoryRepo.find, hj, hn, hl, hl2, List.find?_cons]
        · have hl2 : ¬ j < s.next_id + 1 := by omega
          simp [MemoryRepo.find, hj, hl, hl2]
    · funext j
      by_cases hj : j = s.next_id
      · simp [hj]
      · have : (j < s.next_id + 1) ↔ (j < s.next_id) := by omega
        simp [hj, this]
  addTask_error := by
    intro s task e h
    simp [MemoryRepo.repo] at h
  updateTask_ok := by
    intro s task h
    by_cases hp : (s.find task.GetId).isSome
    · have hne : s.find task.GetId ≠ none := by
        intro e; rw [e] at hp; exact Bool.noConfusion hp
      refine ⟨hne, ?_⟩
      have hlt : task.id_ < s.next_id := MemoryRepo.find_lt s task.GetId hne
      simp only [MemoryRepo.repo, hp, if_true, MemoryRepo.contents, RepoContents.updated,
        RepoContents.mk.injEq, and_true]
      funext j
      by_cases hj : j = task.GetId
      · subst hj
        simp [MemoryRepo.find, hlt, List.find?_cons, SimpleTask.GetId]
      · have hn : ¬ task.id_ = j := fun e => hj e.symm
        simp [MemoryRepo.find, hj, hn, List.find?_cons]
    · simp [MemoryRepo.repo, hp] at h
  updateTask_error := by
    intro s task e h
    by_cases hp : (s.find task.GetId).isSome
    · simp [MemoryRepo.repo, hp] at h
    · simp [MemoryRepo.repo, hp]
  deleteTask_ok := by
    intro s id h
    by_cases hp : (s.find id).isSome
    · have hne : s.find id ≠ none := by
        intro e; rw [e] at hp; exact Bool.noConfusion hp
      refine ⟨hne, ?_⟩
      simp only [MemoryRepo.repo, hp, if_true, MemoryRepo.contents, RepoContents.deleted,
        RepoContents.mk.injEq, and_true]
      funext j
      by_cases hj : j = id
      · subst hj
        simp [MemoryRepo.find]
      · simp only [MemoryRepo.find, hj, if_false]
        rw [MemoryRepo.find_filter_ne s.tasks id j hj]
    · simp [MemoryRepo.repo, hp] at h
  deleteTask_error := by
    intro s id e h
    by_cases hp : (s.find id).isSome
    · simp [MemoryRepo.repo, hp] at h
    · simp [MemoryRepo.repo, hp]
  getAllTasks_spec := by
    intro s
    refine ⟨?_, rfl⟩
    intro task
    simp only [MemoryRepo.repo, MemoryRepo.contents, List.mem_filter, beq_iff_eq,
      SimpleTask.GetId]
    constructor
    · exact fun h => h.2
    · intro h
      refine ⟨?_, h⟩
      unfold MemoryRepo.find at h
      split at h
      · exact List.mem_of_find?_eq_some h
      · exact absurd h (by simp)
  getTaskByID_spec := by
    intro s id
    exact ⟨rfl, rfl⟩

theorem MemoryRepo.contents_empty : MemoryRepo.contents MemoryRepo.empty = RepoContents.empty := by
  simp only [MemoryRepo.contents, RepoContents.empty, RepoContents.mk.injEq]
  constructor
  · funext j
    simp [MemoryRepo.find, MemoryRepo.empty]
  · funext j
    simp [MemoryRepo.empty]

/-! ## The claims -/

/-- C1: for every task state `t` and every text `s`, `SetDescription(s)` returns success
exactly when `s` is non-empty and at most 255 long; whenever it returns success,
`GetDescription()` afterwards is `s`; a text of length exactly 255 is accepted and one of
length 256 is rejected. -/
theorem SetDescription_success_iff (t : SimpleTask) (s : CppString) :
    ((t.SetDescription s).1 = .ok () ↔ (s ≠ [] ∧ s.length ≤ 255)) ∧
    ((t.SetDescription s).1 = .ok () → (t.SetDescription s).2.GetDescription = s) ∧
    (s.length = 255 → (t.SetDescription s).1 = .ok ()) ∧
    (s.length = 256 → (t.SetDescription s).1 ≠ .ok ()) := by
  have key : (t.SetDescription s).1 = .ok () ↔ (s ≠ [] ∧ s.length ≤ 255) := by
    constructor
    · intro h
      by_cases hne : s = []
      · subst hne; simp [SimpleTask.SetDescription_empty] at h
      · by_cases hlen : s.length ≤ 255
        · exact ⟨hne, hlen⟩
        · simp [SimpleTask.SetDescription_long t s (Nat.lt_of_not_le hlen)] at h
    · rintro ⟨hne, hlen⟩
      rw [SimpleTask.SetDescription_valid t s hne hlen]
  refine ⟨key, ?_, ?_, ?_⟩
  · intro h
    obtain ⟨hne, hlen⟩ := key.mp h
    rw [SimpleTask.SetDescription_valid t s hne hlen]
    rfl
  · intro h
    apply key.mpr
    refine ⟨?_, by omega⟩
    intro e; subst e; simp at h
  · intro h hok
    have := (key.mp hok).2
    omega

/-- C1 at concrete inputs: on a fresh task, a 255-byte text is accepted and read back. -/
theorem SetDescription_success_iff_witness :
    (((SimpleTask.mk 0 false [111]).SetDescription (List.replicate 255 97)).1 = .ok () ↔
        (List.replicate 255 (97 : UInt8) ≠ [] ∧ (List.replicate 255 (97 : UInt8)).length ≤ 255)) ∧
    (((SimpleTask.mk 0 false [111]).SetDescription (List.replicate 255 97)).1 = .ok () →
        ((SimpleTask.mk 0 false [111]).SetDescription (List.replicate 255 97)).2.GetDescription
          = List.replicate 255 97) ∧
    ((List.replicate 255 (97 : UInt8)).length = 255 →
        ((SimpleTask.mk 0 false [111]).SetDescription (List.replicate 255 97)).1 = .ok ()) ∧
    ((List.replicate 255 (97 : UInt8)).length = 256 →
        ((SimpleTask.mk 0 false [111]).SetDescription (List.replicate 255 97)).1 ≠ .ok ()) :=
  SetDescription_success_iff (SimpleTask.mk 0 false [111]) (List.replicate 255 97)

/-- C2: for every task state `t`, `SetDescription("")` returns `kEmptyDescription` and
`GetDescription()`, `IsComplete()` and `GetId()` are the same after the call as before. -/
theorem SetDescription_empty_rejected (t : SimpleTask) :
    (t.SetDescription []).1 = .error TaskError.kEmptyDescription ∧
    (t.SetDescription []).2.GetDescription = t.GetDescription ∧
    (t.SetDescription []).2.IsComplete = t.IsComplete ∧
    (t.SetDescription []).2.GetId = t.GetId :=
  ⟨rfl, rfl, rfl, rfl⟩

/-- C3: for every task state `t` and every text `s` longer than 255, `SetDescription(s)`
returns `kDescriptionTooLong` (so not `kEmptyDescription`) and `GetDescription()`,
`IsComplete()` and `GetId()` are the same after the call as before. -/
theorem SetDescription_too_long_rejected (t : SimpleTask) (s : CppString)
    (h : s.length > 255) :
    (t.SetDescription s).1 = .error TaskError.kDescriptionTooLong ∧
    (t.SetDescription s).1 ≠ .error TaskError.kEmptyDescription ∧
    (t.SetDescription s).2.GetDescription = t.GetDescription ∧
    (t.SetDescription s).2.IsComplete = t.IsComplete ∧
    (t.SetDescription s).2.GetId = t.GetId := by
  rw [SimpleTask.SetDescription_long t s h]
  exact ⟨rfl, by simp, rfl, rfl, rfl⟩

/-- C3 at a concrete input: a 256-byte text offered to a complete task with id 7. -/
theorem SetDescription_too_long_rejected_witness :
    (List.replicate 256 (97 : UInt8)).length > 255 ∧
    ((SimpleTask.mk 7 true [111]).SetDescription (List.replicate 256 97)).1
      = .error TaskError.kDescriptionTooLong ∧
    ((SimpleTask.mk 7 true [111]).SetDescription (List.replicate 256 97)).2.GetDescription
      = [111] :=
  have h : (List.replicate 256 (97 : UInt8)).length > 255 := by
    rw [List.length_replicate]; decide
  have r := SetDescription_too_long_rejected (SimpleTask.mk 7 true [111]) (List.replicate 256 97) h
  ⟨h, r.1, r.2.2.1⟩

/-- C4: for every description `s` of length between 1 and 255, the constructor does not
throw: it yields a task, and `GetDescription()` on that task is exactly `s`. -/
theorem construct_valid_description (s : CppString) (h1 : 1 ≤ s.length) (h2 : s.length ≤ 255) :
    ∃ t, SimpleTask.construct s = .ok t ∧ t.GetDescription = s := by
  cases s with
  | nil => simp at h1
  | cons b bs => exact ⟨_, rfl, rfl⟩

/-- C4 at the description of the unit test, `"Write C++ unit tests."`. -/
theorem construct_valid_description_witness :
    (1 ≤ (lit "Write C++ unit tests.").length ∧ (lit "Write C++ unit tests.").length ≤ 255) ∧
    ∃ t, SimpleTask.construct (lit "Write C++ unit tests.") = .ok t ∧
      t.GetDescription = lit "Write C++ unit tests." :=
  ⟨by decide, construct_valid_description (lit "Write C++ unit tests.") (by decide) (by decide)⟩

/-- C5: the constructor called with the empty description throws a `TaskConstructionError`
(with the message of the source) and yields no task.  The thrown value is an exception
object, a type disjoint from the `TaskError` values returned by the mutators. -/
theorem construct_empty_throws :
    SimpleTask.construct [] =
        .error (TaskConstructionError.mk (lit "Simple Task Error: Description must not be empty.")) ∧
    (∃ e : TaskConstructionError, SimpleTask.construct [] = .error e) ∧
    (∀ t : SimpleTask, SimpleTask.construct [] ≠ .ok t) := by
  refine ⟨rfl, ⟨_, rfl⟩, ?_⟩
  intro t h
  simp [SimpleTask.construct] at h

/-- C6, evaluated on the code: the constructor accepts a description of 256 bytes, and the
task it yields holds a description longer than 255, so the description invariant fails on a
successfully constructed task.  Only emptiness is checked at construction; the length check
of `SetDescription` has no counterpart there. -/
theorem construct_accepts_256_bytes :
    SimpleTask.construct (List.replicate 256 97) =
        .ok { id_ := 0, is_complete_ := false, description_ := List.replicate 256 97 } ∧
    (SimpleTask.mk 0 false (List.replicate 256 97)).GetDescription.length = 256 ∧
    ¬ (SimpleTask.mk 0 false (List.replicate 256 97)).DescriptionValid := by
  refine ⟨rfl, ?_, ?_⟩
  · simp only [SimpleTask.GetDescription, List.length_replicate]
  · simp only [SimpleTask.DescriptionValid, List.length_replicate]
    omega

/-- C7: for every task whose completion flag is false, `MarkComplete()` returns success
and `IsComplete()` is true afterwards. -/
theorem MarkComplete_pending_succeeds (t : SimpleTask) (h : t.IsComplete = false) :
    t.MarkComplete.1 = .ok () ∧ t.MarkComplete.2.IsComplete = true := by
  rw [SimpleTask.MarkComplete_pending t h]
  exact ⟨rfl, rfl⟩

/-- C7 at a freshly built pending task. -/
theorem MarkComplete_pending_succeeds_witness :
    (SimpleTask.mk 0 false [111]).IsComplete = false ∧
    (SimpleTask.mk 0 false [111]).MarkComplete.1 = .ok () ∧
    (SimpleTask.mk 0 false [111]).MarkComplete.2.IsComplete = true :=
  ⟨rfl, MarkComplete_pending_succeeds (SimpleTask.mk 0 false [111]) rfl⟩

/-- C8: `MarkComplete` is not idempotent.  On every task whose completion flag is already
true it returns `kAlreadyComplete` and leaves the whole state unchanged (`IsComplete()`
stays true, description and id are the same); and on every pending task two consecutive
calls return success and then `kAlreadyComplete`. -/
theorem MarkComplete_not_idempotent (t : SimpleTask) :
    (t.IsComplete = true →
      t.MarkComplete.1 = .error TaskError.kAlreadyComplete ∧
      t.MarkComplete.2 = t ∧
      t.MarkComplete.2.IsComplete = true ∧
      t.MarkComplete.2.GetDescription = t.GetDescription ∧
      t.MarkComplete.2.GetId = t.GetId) ∧
    (t.IsComplete = false →
      t.MarkComplete.1 = .ok () ∧
      t.MarkComplete.2.MarkComplete.1 = .error TaskError.kAlreadyComplete ∧
      t.MarkComplete.2.MarkComplete.2.IsComplete = true) := by
  constructor
  · intro h
    rw [SimpleTask.MarkComplete_complete t h]
    exact ⟨rfl, rfl, h, rfl, rfl⟩
  · intro h
    rw [SimpleTask.MarkComplete_pending t h]
    exact ⟨rfl, rfl, rfl⟩

/-- C8 at a complete task (first part) and at a pending task (second part). -/
theorem MarkComplete_not_idempotent_witness :
    ((SimpleTask.mk 3 true [111]).IsComplete = true ∧
      (SimpleTask.mk 3 true [111]).MarkComplete.1 = .error TaskError.kAlreadyComplete ∧
      (SimpleTask.mk 3 true [111]).MarkComplete.2 = SimpleTask.mk 3 true [111]) ∧
    ((SimpleTask.mk 0 false [111]).IsComplete = false ∧
      (SimpleTask.mk 0 false [111]).MarkComplete.1 = .ok () ∧
      (SimpleTask.mk 0 false [111]).MarkComplete.2.MarkComplete.1
        = .error TaskError.kAlreadyComplete) :=
  have a := (MarkComplete_not_idempotent (SimpleTask.mk 3 true [111])).1 rfl
  have b := (MarkComplete_not_idempotent (SimpleTask.mk 0 false [111])).2 rfl
  ⟨⟨rfl, a.1, a.2.1⟩, ⟨rfl, b.1, b.2.1⟩⟩

/-- C9: completion is monotonic.  For every task with `IsComplete()` true and every finite
sequence of `SetDescription` and `MarkComplete` calls with arbitrary arguments, whether
each call succeeds or fails, `IsComplete()` is still true after the sequence. -/
theorem IsComplete_monotonic (t : SimpleTask) (cs : List TaskCall) (h : t.IsComplete = true) :
    (t.calls cs).IsComplete = true := by
  induction cs generalizing t with
  | nil => exact h
  | cons c cs ih =>
    have hc : (t.call c).IsComplete = true := SimpleTask.call_complete t c h
    simpa [SimpleTask.calls] using ih (t.call c) hc

/-- C9 on a complete task put through an accepted rename, a second completion, an empty
rename and an over-long rename. -/
theorem IsComplete_monotonic_witness :
    (SimpleTask.mk 0 true [111]).IsComplete = true ∧
    ((SimpleTask.mk 0 true [111]).calls
      [.SetDescription [112, 113], .MarkComplete, .SetDescription [],
        .SetDescription (List.replicate 256 97)]).IsComplete = true :=
  ⟨rfl, IsComplete_monotonic (SimpleTask.mk 0 true [111]) _ rfl⟩

/-- C10: the mutators preserve the description invariant.  For every task whose description
is non-empty and at most 255 long, after a single call of `SetDescription` with any
argument (accepted or rejected) and after a single call of `MarkComplete`, the description
is still non-empty and at most 255 long. -/
theorem mutators_preserve_DescriptionValid (t : SimpleTask) (h : t.DescriptionValid) :
    (∀ s : CppString, (t.SetDescription s).2.DescriptionValid) ∧
    t.MarkComplete.2.DescriptionValid := by
  constructor
  · intro s
    rcases SimpleTask.SetDescription_state t s with e | ⟨e, hne, hlen⟩
    · rw [e]; exact h
    · rw [e]; exact ⟨hne, hlen⟩
  · cases hc : t.is_complete_ with
    | true => rw [SimpleTask.MarkComplete_complete t hc]; exact h
    | false => rw [SimpleTask.MarkComplete_pending t hc]; exact h

/-- C10 at a fresh task with a one-byte description. -/
theorem mutators_preserve_DescriptionValid_witness :
    (SimpleTask.mk 0 false [111]).DescriptionValid ∧
    ((SimpleTask.mk 0 false [111]).SetDescription (List.replicate 256 97)).2.DescriptionValid ∧
    ((SimpleTask.mk 0 false [111]).SetDescription [112]).2.DescriptionValid ∧
    (SimpleTask.mk 0 false [111]).MarkComplete.2.DescriptionValid :=
  have h : (SimpleTask.mk 0 false [111]).DescriptionValid := by decide
  have r := mutators_preserve_DescriptionValid (SimpleTask.mk 0 false [111]) h
  ⟨h, r.1 _, r.1 _, r.2⟩

/-- C11: for every task with id `i`, completion flag `c` and description `d`, `ToString()`
is the concatenation of `"SimpleTask { ID: "`, the decimal rendering of `i`,
`", Completion Status: "`, `"1"` if `c` and `"0"` otherwise, `", Description: "`, `d` itself
and `"}"`, with nothing between `d` and the closing brace; the task freshly built from
`"Buy milk"` renders as `"SimpleTask { ID: 0, Completion Status: 0, Description: Buy milk}"`. -/
theorem ToString_concatenation (t : SimpleTask) :
    t.ToString =
      lit "SimpleTask \x7b ID: " ++ to_string t.GetId ++ lit ", Completion Status: " ++
        (if t.IsComplete then lit "1" else lit "0") ++ lit ", Description: " ++
        t.GetDescription ++ lit "\x7d" ∧
    (SimpleTask.construct (lit "Buy milk")).map SimpleTask.ToString =
      .ok (lit "SimpleTask \x7b ID: 0, Completion Status: 0, Description: Buy milk\x7d") := by
  constructor
  · have h := to_string_boolToInt t.is_complete_
    simp only [statusText] at h
    simp only [SimpleTask.ToString, SimpleTask.GetId, SimpleTask.IsComplete,
      SimpleTask.GetDescription, h]
  · have hc : SimpleTask.construct (lit "Buy milk") =
        .ok (SimpleTask.mk 0 false (lit "Buy milk")) := rfl
    have hs : (SimpleTask.mk 0 false (lit "Buy milk")).ToString =
        lit "SimpleTask \x7b ID: 0, Completion Status: 0, Description: Buy milk\x7d" := by
      simp [SimpleTask.ToString, to_string, boolToInt, lit, String.utf8EncodeChar]
    rw [hc]
    exact congrArg Except.ok hs

/-- C12 as stated fails: the fresh task built from `"Buy milk"` does not render as the
template closed by a space and a brace; its rendering is one byte shorter. -/
theorem ToString_space_before_brace_counterexample :
    (SimpleTask.mk 0 false (lit "Buy milk")).ToString ≠
      renderTemplate (to_string 0) (statusText false) (lit "Buy milk") (lit " \x7d") := by
  intro h
  have hl := congrArg List.length h
  rw [SimpleTask.ToString_eq_renderTemplate] at hl
  simp [renderTemplate, lit, String.utf8EncodeChar] at hl

/-- C12 amended: for every task, `ToString()` is the template
`SimpleTask { ID: <id>, Completion Status: <status>, Description: <description>}`: the
description is followed directly by the closing brace, and the rendering is never the
template closed by a space and a brace. -/
theorem ToString_template_no_space (t : SimpleTask) :
    t.ToString =
      renderTemplate (to_string t.GetId) (statusText t.IsComplete) t.GetDescription
        (lit "\x7d") ∧
    t.ToString ≠
      renderTemplate (to_string t.GetId) (statusText t.IsComplete) t.GetDescription
        (lit " \x7d") := by
  refine ⟨SimpleTask.ToString_eq_renderTemplate t, ?_⟩
  intro h
  have hl := congrArg List.length h
  rw [SimpleTask.ToString_eq_renderTemplate] at hl
  simp [renderTemplate, lit, String.utf8EncodeChar, SimpleTask.GetId, SimpleTask.IsComplete,
    SimpleTask.GetDescription] at hl

/-- C13: for every non-empty description `s`, construction succeeds and the task it yields
is pending and carries the placeholder identity: `IsComplete()` is false and `GetId()`
is 0. -/
theorem construct_pending_id_zero (s : CppString) (h : s ≠ []) :
    ∃ t, SimpleTask.construct s = .ok t ∧ t.IsComplete = false ∧ t.GetId = 0 := by
  cases s with
  | nil => exact absurd rfl h
  | cons b bs => exact ⟨_, rfl, rfl, rfl⟩

/-- C13 at the description `"Buy milk"`. -/
theorem construct_pending_id_zero_witness :
    lit "Buy milk" ≠ [] ∧
    ∃ t, SimpleTask.construct (lit "Buy milk") = .ok t ∧ t.IsComplete = false ∧ t.GetId = 0 :=
  ⟨List.ne_nil_of_length_pos (by decide),
    construct_pending_id_zero (lit "Buy milk") (List.ne_nil_of_length_pos (by decide))⟩

/-- C14: identity is immutable through the task's own interface.  For every task, `GetId()`
is the same after `SetDescription` with any argument and after `MarkComplete` as before;
hence after any finite sequence of these calls, and in particular on every task reached
from a construction, `GetId()` is the value it had at construction. -/
theorem GetId_immutable (t : SimpleTask) :
    (∀ s : CppString, (t.SetDescription s).2.GetId = t.GetId) ∧
    t.MarkComplete.2.GetId = t.GetId ∧
    (∀ cs : List TaskCall, (t.calls cs).GetId = t.GetId) ∧
    (∀ (s : CppString) (cs : List TaskCall),
      SimpleTask.construct s = .ok t → (t.calls cs).GetId = t.GetId ∧ (t.calls cs).GetId = 0) := by
  refine ⟨fun s => SimpleTask.call_id t (.SetDescription s), SimpleTask.call_id t .MarkComplete,
    fun cs => SimpleTask.calls_id t cs, ?_⟩
  intro s cs hc
  refine ⟨SimpleTask.calls_id t cs, ?_⟩
  have h0 : t.id_ = 0 := by
    cases s with
    | nil => simp [SimpleTask.construct] at hc
    | cons b bs =>
      simp only [SimpleTask.construct, List.isEmpty, Bool.false_eq_true, if_false,
        Except.ok.injEq] at hc
      rw [← hc]
  exact (SimpleTask.calls_id t cs).trans h0

/-- C14 on the task built from `"Buy milk"`, renamed and completed. -/
theorem GetId_immutable_witness :
    SimpleTask.construct (lit "Buy milk") = .ok (SimpleTask.mk 0 false (lit "Buy milk")) ∧
    ((SimpleTask.mk 0 false (lit "Buy milk")).calls
      [.SetDescription (lit "Buy bread"), .MarkComplete, .SetDescription []]).GetId = 0 :=
  ⟨rfl, ((GetId_immutable (SimpleTask.mk 0 false (lit "Buy milk"))).2.2.2
    (lit "Buy milk") _ rfl).2⟩

/-- C16 as stated fails: a text of 128 code points, each U+00E9, is non-empty and has at
most 255 code points, but its UTF-8 encoding occupies 256 bytes, and `SetDescription`
rejects it with `kDescriptionTooLong` and keeps the old description. -/
theorem SetDescription_counts_bytes_counterexample :
    List.replicate 128 (Char.ofNat 233) ≠ [] ∧
    (List.replicate 128 (Char.ofNat 233)).length ≤ 255 ∧
    (utf8 (List.replicate 128 (Char.ofNat 233))).length = 256 ∧
    ((SimpleTask.mk 0 false (lit "Buy milk")).SetDescription
        (utf8 (List.replicate 128 (Char.ofNat 233)))).1 = .error TaskError.kDescriptionTooLong ∧
    ((SimpleTask.mk 0 false (lit "Buy milk")).SetDescription
        (utf8 (List.replicate 128 (Char.ofNat 233)))).2.GetDescription = lit "Buy milk" := by
  have hl : (utf8 (List.replicate 128 (Char.ofNat 233))).length = 256 := by
    rw [utf8_length_replicate]; rfl
  have hr := SimpleTask.SetDescription_long (SimpleTask.mk 0 false (lit "Buy milk"))
    (utf8 (List.replicate 128 (Char.ofNat 233))) (by rw [hl]; decide)
  refine ⟨?_, ?_, hl, ?_, ?_⟩
  · exact List.ne_nil_of_length_pos (by rw [List.length_replicate]; decide)
  · rw [List.length_replicate]; decide
  · rw [hr]
  · rw [hr]; rfl

/-- C16 amended: the 255 limit of `SetDescription` is a limit on bytes.  For every non-empty
text whose UTF-8 encoding occupies at most 255 bytes in the `std::string`, whatever its
number of code points, `SetDescription` returns success and stores the text. -/
theorem SetDescription_limit_in_bytes (t : SimpleTask) (text : List Char)
    (hne : text ≠ []) (hlen : (utf8 text).length ≤ 255) :
    (t.SetDescription (utf8 text)).1 = .ok () ∧
    (t.SetDescription (utf8 text)).2.GetDescription = utf8 text := by
  rw [SimpleTask.SetDescription_valid t (utf8 text) (utf8_ne_nil text hne) hlen]
  exact ⟨rfl, rfl⟩

/-- C16 amended, at a text of 127 code points U+00E9, which occupies 254 bytes. -/
theorem SetDescription_limit_in_bytes_witness :
    (List.replicate 127 (Char.ofNat 233) ≠ [] ∧
      (utf8 (List.replicate 127 (Char.ofNat 233))).length ≤ 255) ∧
    ((SimpleTask.mk 0 false (lit "Buy milk")).SetDescription
        (utf8 (List.replicate 127 (Char.ofNat 233)))).1 = .ok () :=
  have hne : List.replicate 127 (Char.ofNat 233) ≠ [] :=
    List.ne_nil_of_length_pos (by rw [List.length_replicate]; decide)
  have hlen : (utf8 (List.replicate 127 (Char.ofNat 233))).length ≤ 255 := by
    rw [utf8_length_replicate]; decide
  ⟨⟨hne, hlen⟩, (SetDescription_limit_in_bytes _ _ hne hlen).1⟩

/-- C17: the exception thrown for an empty description is a `TaskConstructionError` whose
message is the non-empty text `"Simple Task Error: Description must not be empty."`;
`TaskConstructionError` is caught by a `std::logic_error` handler too, but in `main` the
`TaskConstructionError` clause comes first and is the one that runs, not the generic
`logic_error` or `exception` clause; it prints its text followed by the message, and
`main` returns 0. -/
theorem main_handles_construction_error :
    SimpleTask.construct (lit "") =
      .error ⟨lit "Simple Task Error: Description must not be empty."⟩ ∧
    lit "Simple Task Error: Description must not be empty." ≠ [] ∧
    ExceptionClass.caughtBy .TaskConstructionError .logic_error = true ∧
    ToDoList.main.handler = some ExceptionClass.TaskConstructionError ∧
    ToDoList.main.handler ≠ some ExceptionClass.logic_error ∧
    ToDoList.main.handler ≠ some ExceptionClass.exception ∧
    ToDoList.main.cerr =
      lit "Task Construction Failure:" ++
        lit "Simple Task Error: Description must not be empty." ++ lit "\n" ∧
    ToDoList.main.returned = some 0 := by
  have hh : ToDoList.main.handler = some ExceptionClass.TaskConstructionError := rfl
  refine ⟨rfl, List.ne_nil_of_length_pos (by decide), rfl, hh, ?_, ?_, rfl, rfl⟩
  · rw [hh]; decide
  · rw [hh]; decide

/-- C18: the two mutators are independent.  A successful `SetDescription(s)` leaves
`IsComplete()` unchanged; `SetDescription` never returns `kAlreadyComplete` and returns the
same result on a complete task as on a pending one; `MarkComplete()` leaves
`GetDescription()` unchanged; and for every task and valid `s`, `SetDescription(s)` followed
by `MarkComplete()` ends in the same state as `MarkComplete()` followed by
`SetDescription(s)`. -/
theorem mutators_independent (t : SimpleTask) (s : CppString) :
    ((t.SetDescription s).1 = .ok () → (t.SetDescription s).2.IsComplete = t.IsComplete) ∧
    (t.SetDescription s).1 ≠ .error TaskError.kAlreadyComplete ∧
    (({ t with is_complete_ := true }).SetDescription s).1 =
      (({ t with is_complete_ := false }).SetDescription s).1 ∧
    (t.MarkComplete.1 = .ok () → t.MarkComplete.2.GetDescription = t.GetDescription) ∧
    (s ≠ [] ∧ s.length ≤ 255 →
      (t.SetDescription s).2.MarkComplete.2 = (t.MarkComplete.2.SetDescription s).2) := by
  refine ⟨?_, ?_, ?_, ?_, ?_⟩
  · intro _
    rcases SimpleTask.SetDescription_state t s with e | ⟨e, _⟩ <;>
      simp only [e, SimpleTask.IsComplete]
  · by_cases hne : s = []
    · subst hne; simp [SimpleTask.SetDescription_empty]
    · by_cases hlen : s.length ≤ 255
      · simp [SimpleTask.SetDescription_valid t s hne hlen]
      · simp [SimpleTask.SetDescription_long t s (Nat.lt_of_not_le hlen)]
  · by_cases hne : s = []
    · subst hne; rfl
    · by_cases hlen : s.length ≤ 255
      · rw [SimpleTask.SetDescription_valid _ s hne hlen,
          SimpleTask.SetDescription_valid _ s hne hlen]
      · rw [SimpleTask.SetDescription_long _ s (Nat.lt_of_not_le hlen),
          SimpleTask.SetDescription_long _ s (Nat.lt_of_not_le hlen)]
  · intro _
    cases h : t.is_complete_ with
    | true => rw [SimpleTask.MarkComplete_complete t h]
    | false => rw [SimpleTask.MarkComplete_pending t h]; rfl
  · rintro ⟨hne, hlen⟩
    rw [SimpleTask.SetDescription_valid t s hne hlen,
      SimpleTask.SetDescription_valid _ s hne hlen]
    obtain ⟨i, c, d⟩ := t
    cases c
    · rw [SimpleTask.MarkComplete_pending _ rfl, SimpleTask.MarkComplete_pending _ rfl]
    · rw [SimpleTask.MarkComplete_complete _ rfl, SimpleTask.MarkComplete_complete _ rfl]

/-- C18 on a pending task and the valid text `"Buy bread"`: both orders end in the complete
task with the new description. -/
theorem mutators_independent_witness :
    (lit "Buy bread" ≠ [] ∧ (lit "Buy bread").length ≤ 255) ∧
    ((SimpleTask.mk 0 false (lit "Buy milk")).SetDescription (lit "Buy bread")).2.MarkComplete.2 =
      ((SimpleTask.mk 0 false (lit "Buy milk")).MarkComplete.2.SetDescription (lit "Buy bread")).2 :=
  have h : lit "Buy bread" ≠ [] ∧ (lit "Buy bread").length ≤ 255 :=
    ⟨List.ne_nil_of_length_pos (by decide), by decide⟩
  ⟨h, (mutators_independent (SimpleTask.mk 0 false (lit "Buy milk")) (lit "Buy bread")).2.2.2.2 h⟩

/-- C19: `ToString` is injective on task states.  For every two task states, if their
`ToString()` outputs are equal then their ids, their completion flags and their
descriptions are equal, although the description is rendered without escaping. -/
theorem ToString_injective (t₁ t₂ : SimpleTask) (h : t₁.ToString = t₂.ToString) :
    t₁.GetId = t₂.GetId ∧ t₁.IsComplete = t₂.IsComplete ∧
      t₁.GetDescription = t₂.GetDescription := by
  obtain ⟨i₁, c₁, d₁⟩ := t₁
  obtain ⟨i₂, c₂, d₂⟩ := t₂
  have hsep : lit ", Completion Status: " = 44 :: lit " Completion Status: " := by
    simp [lit, String.utf8EncodeChar]
    decide
  have h0 : statusText false = [48] := by decide
  have h1 : statusText true = [49] := by decide
  simp only [SimpleTask.ToString, to_string_boolToInt, List.append_assoc] at h
  have hA := List.append_cancel_left h
  rw [hsep] at hA
  obtain ⟨hid, hB⟩ :=
    split_at_separator _ _ _ _ (to_string_no_comma i₁) (to_string_no_comma i₂) hA
  have hi : i₁ = i₂ := to_string_injective i₁ i₂ hid
  have hC := List.append_cancel_left hB
  have hc : c₁ = c₂ := by
    cases c₁ <;> cases c₂
    · rfl
    · simp only [h0, h1, List.singleton_append, List.cons.injEq] at hC
      exact absurd hC.1 (by decide)
    · simp only [h0, h1, List.singleton_append, List.cons.injEq] at hC
      exact absurd hC.1 (by decide)
    · rfl
  subst hc
  have hD := List.append_cancel_left (List.append_cancel_left hC)
  have hd : d₁ = d₂ := List.append_cancel_right hD
  exact ⟨hi, rfl, hd⟩

/-- C19 on two states whose renderings are equal. -/
theorem ToString_injective_witness :
    (SimpleTask.mk 7 true (lit "Buy milk")).ToString =
      (SimpleTask.mk (3 + 4) (true || false) (lit "Buy milk")).ToString ∧
    (SimpleTask.mk 7 true (lit "Buy milk")).GetId =
      (SimpleTask.mk (3 + 4) (true || false) (lit "Buy milk")).GetId :=
  ⟨rfl, (ToString_injective (SimpleTask.mk 7 true (lit "Buy milk"))
    (SimpleTask.mk (3 + 4) (true || false) (lit "Buy milk")) rfl).1⟩

/-- C15 as stated fails, for a repository that conforms to the contract of the
specification: the in-memory repository conforms, its `addTask` of a pending `"Buy milk"`
returns identity 0, and a subsequent `getTaskByID(0)` returns the absent value when
`deleteTask(0)` came in between, and a complete task described `"Buy bread"` when an
`updateTask` of identity 0 came in between. -/
theorem TaskRepo_get_after_delete_counterexample :
    (MemoryRepo.repo TaskError.kAlreadyComplete).Conformant MemoryRepo.contents ∧
    ((MemoryRepo.repo TaskError.kAlreadyComplete).addTask MemoryRepo.empty
        (SimpleTask.mk 0 false (lit "Buy milk"))).1 = .ok 0 ∧
    ((MemoryRepo.repo TaskError.kAlreadyComplete).getTaskByID
        ((MemoryRepo.repo TaskError.kAlreadyComplete).calls
          ((MemoryRepo.repo TaskError.kAlreadyComplete).addTask MemoryRepo.empty
            (SimpleTask.mk 0 false (lit "Buy milk"))).2
          [RepoCall.deleteTask 0]) 0).1 = none ∧
    ((MemoryRepo.repo TaskError.kAlreadyComplete).getTaskByID
        ((MemoryRepo.repo TaskError.kAlreadyComplete).calls
          ((MemoryRepo.repo TaskError.kAlreadyComplete).addTask MemoryRepo.empty
            (SimpleTask.mk 0 false (lit "Buy milk"))).2
          [RepoCall.updateTask (SimpleTask.mk 0 true (lit "Buy bread"))]) 0).1
      = some (SimpleTask.mk 0 true (lit "Buy bread")) :=
  ⟨MemoryRepo.conformant TaskError.kAlreadyComplete, rfl, rfl, rfl⟩

/-- C15 amended, for every implementation of `TaskRepo` that conforms to the repository
contract of the specification.  If `addTask(t)` returns an identity `i`, then `getTaskByID(i)`
made after any further sequence of calls that contains no `updateTask` of a task with
identity `i` and no `deleteTask(i)` returns a present task whose description and completion
status are those of `t` at insertion; and in a repository that started empty,
`getTaskByID` on an identity that no `addTask` call returned gives the absent value. -/
theorem TaskRepo_conformant_add_then_get {σ : Type} (R : TaskRepo σ)
    (contents : σ → RepoContents) (hR : R.Conformant contents) :
    (∀ (s : σ) (t : SimpleTask) (i : Nat) (between : List RepoCall),
      (R.addTask s t).1 = .ok i → (∀ c ∈ between, c.touches i = false) →
      ∃ u, (R.getTaskByID (R.calls (R.addTask s t).2 between) i).1 = some u ∧
        u.GetDescription = t.GetDescription ∧ u.IsComplete = t.IsComplete) ∧
    (∀ (s₀ : σ) (history : List RepoCall) (j : Nat),
      contents s₀ = RepoContents.empty → j ∉ R.returned s₀ history →
      (R.getTaskByID (R.calls s₀ history) j).1 = none) := by
  constructor
  · intro s t i between hadd hbetween
    obtain ⟨_, he⟩ := hR.addTask_ok s t i hadd
    have hiss : (contents (R.addTask s t).2).issued i = true := by
      rw [he]; simp [RepoContents.added]
    have hown : (contents (R.addTask s t).2).owned i = some { t with id_ := i } := by
      rw [he]; simp [RepoContents.added]
    refine ⟨{ t with id_ := i }, ?_, rfl, rfl⟩
    rw [(hR.getTaskByID_spec _ i).1, hR.calls_keeps i between _ hiss hbetween, hown]
  · intro s₀ history j hempty hj
    rw [(hR.getTaskByID_spec _ j).1]
    apply hR.calls_absent j history s₀ hj
    · rw [hempty]; rfl
    · rw [hempty]; rfl

/-- C15 amended, on the in-memory repository: `"Buy milk"` (complete) is added to the empty
repository under identity 0 and is still retrieved after another add, a listing, a delete
of identity 1, a failing update of identity 5 and a lookup; identity 3, which no `addTask`
returned, is absent. -/
theorem TaskRepo_conformant_add_then_get_witness :
    ((MemoryRepo.repo TaskError.kAlreadyComplete).addTask MemoryRepo.empty
        (SimpleTask.mk 9 true (lit "Buy milk"))).1 = .ok 0 ∧
    (∀ c ∈ [RepoCall.addTask (SimpleTask.mk 0 false (lit "Buy bread")), RepoCall.getAllTasks,
        RepoCall.deleteTask 1, RepoCall.updateTask (SimpleTask.mk 5 false [111]),
        RepoCall.getTaskByID 0], c.touches 0 = false) ∧
    (∃ u, ((MemoryRepo.repo TaskError.kAlreadyComplete).getTaskByID
        ((MemoryRepo.repo TaskError.kAlreadyComplete).calls
          ((MemoryRepo.repo TaskError.kAlreadyComplete).addTask MemoryRepo.empty
            (SimpleTask.mk 9 true (lit "Buy milk"))).2
          [RepoCall.addTask (SimpleTask.mk 0 false (lit "Buy bread")), RepoCall.getAllTasks,
            RepoCall.deleteTask 1, RepoCall.updateTask (SimpleTask.mk 5 false [111]),
            RepoCall.getTaskByID 0]) 0).1 = some u ∧
      u.GetDescription = lit "Buy milk" ∧ u.IsComplete = true) ∧
    (3 ∉ (MemoryRepo.repo TaskError.kAlreadyComplete).returned MemoryRepo.empty
        [RepoCall.addTask (SimpleTask.mk 0 false [111]), RepoCall.deleteTask 0] ∧
      ((MemoryRepo.repo TaskError.kAlreadyComplete).getTaskByID
        ((MemoryRepo.repo TaskError.kAlreadyComplete).calls MemoryRepo.empty
          [RepoCall.addTask (SimpleTask.mk 0 false [111]), RepoCall.deleteTask 0]) 3).1 = none) :=
  have h := TaskRepo_conformant_add_then_get (MemoryRepo.repo TaskError.kAlreadyComplete)
    MemoryRepo.contents (MemoryRepo.conformant TaskError.kAlreadyComplete)
  have hb : ∀ c ∈ [RepoCall.addTask (SimpleTask.mk 0 false (lit "Buy bread")),
      RepoCall.getAllTasks, RepoCall.deleteTask 1,
      RepoCall.updateTask (SimpleTask.mk 5 false [111]), RepoCall.getTaskByID 0],
      c.touches 0 = false := by
    intro c hc
    simp only [List.mem_cons, List.mem_singleton, List.not_mem_nil, or_false] at hc
    rcases hc with rfl | rfl | rfl | rfl | rfl <;> rfl
  have h3 : 3 ∉ (MemoryRepo.repo TaskError.kAlreadyComplete).returned MemoryRepo.empty
      [RepoCall.addTask (SimpleTask.mk 0 false [111]), RepoCall.deleteTask 0] := by
    decide
  ⟨rfl, hb, h.1 MemoryRepo.empty (SimpleTask.mk 9 true (lit "Buy milk")) 0 _ rfl hb,
    h3, h.2 MemoryRepo.empty _ 3 MemoryRepo.contents_empty h3⟩
